import Mathlib

/-!
# Verification of the yamlable tag-based serialization layer

Shallow embedding of the `yamlable` library (files `yamlable/base.py` and
`yamlable/main.py`): the tag registry for self-describing `YamlAble` classes,
the dispatch engine `decode_yamlable` / `encode_yamlable`, the declarative
annotation `yaml_info_decorate`, the multi-type `YamlCodec`, and the subclass
enumeration `_get_all_subclasses`.

Python values are modelled by `Value`; parsed-and-constructed YAML nodes by
`Node` (a scalar node constructs to the raw string, mapping/sequence nodes to
deeply-constructed containers, mirroring `read_yaml_node_as_dict` /
`read_yaml_node_as_sequence` / `read_yaml_node_as_scalar`); exceptions by
`PyError` carried in `Except`.
-/

set_option autoImplicit false
set_option maxRecDepth 8192

namespace Yamlable

/-- A Python value, as far as this library observes it: strings, numbers,
booleans, `None`, lists and string-keyed mappings. -/
inductive Value where
  | vstr (s : String)
  | vint (n : Int)
  | vbool (b : Bool)
  | vnone
  | vlist (l : List Value)
  | vmap (m : List (String × Value))

/-- A Python exception as raised by this library. -/
inductive PyError where
  | notImplementedError (msg : String)
  | typeError (msg : String)
  | valueError (msg : String)
  deriving DecidableEq

deriving instance DecidableEq for Except

/-- A parsed YAML node after the loader has constructed its payload:
`construct_scalar` yields the raw (non type-resolved) string, while
`construct_sequence(..., deep=True)` / `construct_mapping(..., deep=True)`
yield fully constructed containers.  This models the three node shapes
consumed by `read_yaml_node_as_yamlobject` and `YamlCodec.decode`. -/
inductive Node where
  | scalar (value : String)
  | sequence (items : List Value)
  | mapping (pairs : List (String × Value))

/-- A Python object instance: the id of its runtime class together with
`vars(self)`, its instance attribute dictionary. -/
structure Obj where
  clsId : Nat
  fields : List (String × Value)

/-- A `YamlAble` subclass.  `tagSuffix` is the value of the (possibly
inherited) `__yaml_tag_suffix__` attribute; `ownSuffix` records whether
`'__yaml_tag_suffix__' in cls.__dict__` (set on the class itself rather than
inherited).  `ctor` is the class constructor, receiving positional and keyword
arguments; the `…Ov` fields model optional overrides of the
`__to_yaml_dict__` / `__from_yaml_dict__` / `__from_yaml_list__` /
`__from_yaml_scalar__` methods (`none` = the inherited default from
`AbstractYamlObject`). -/
structure YClass where
  name : String
  tagSuffix : Option String
  ownSuffix : Bool
  isYamlAbleSub : Bool := true
  isYamlObject2Sub : Bool := false
  ctor : List Value → List (String × Value) → Except PyError Obj
  toYamlDictOv : Option (Obj → List (String × Value)) := none
  fromYamlDictOv : Option (List (String × Value) → String → Except PyError Obj) := none
  fromYamlListOv : Option (List Value → String → Except PyError Obj) := none
  fromYamlScalarOv : Option (String → String → Except PyError Obj) := none

/-- `YamlAble.is_yaml_tag_supported` (main.py:75-101).  If the class carries a
non-`None` `__yaml_tag_suffix__`: when set on the class itself, compare it to
the queried tag; when merely inherited, raise `TypeError`.  Otherwise raise
`NotImplementedError`. -/
def is_yaml_tag_supported (cls : YClass) (yaml_tag : String) : Except PyError Bool :=
  match cls.tagSuffix with
  | some sfx =>
    if cls.ownSuffix then
      .ok (sfx == yaml_tag)
    else
      .error (.typeError ("`__yaml_tag_suffix__` field is not redefined by class " ++ cls.name
        ++ ", cannot inherit from YamlAble properly."))
  | none =>
    .error (.notImplementedError ("class " ++ cls.name
      ++ " does not seem to have a non-None '__yaml_tag_suffix__' field. You can either create "
      ++ "one manually or by decorating your class with @yaml_info. Alternately you should "
      ++ "override the 'is_yaml_tag_supported' method from YamlAble."))

/-- Declaring a plain subclass of a `YamlAble` class (base.py/main.py have no
metaclass magic for `YamlAble`): class creation always succeeds, the subclass
inherits `__yaml_tag_suffix__` from its parent and does not hold it in its own
`__dict__`. -/
def pythonSubclass (parent : YClass) (nm : String)
    (cf : List Value → List (String × Value) → Except PyError Obj) : YClass :=
  { parent with name := nm, ownSuffix := false, ctor := cf }

/-- `AbstractYamlObject.__to_yaml_dict__` (base.py:78-94): default
implementation returns `vars(self)`. -/
def toYamlDictMeth (env : Nat → YClass) (obj : Obj) : List (String × Value) :=
  match (env obj.clsId).toYamlDictOv with
  | some f => f obj
  | none => obj.fields

/-- `AbstractYamlObject.__from_yaml_dict__` (base.py:142-169): default
implementation returns `cls(**dct)`. -/
def fromYamlDictMeth (cls : YClass) (dct : List (String × Value)) (yaml_tag : String) :
    Except PyError Obj :=
  match cls.fromYamlDictOv with
  | some f => f dct yaml_tag
  | none => cls.ctor [] dct

/-- `AbstractYamlObject.__from_yaml_list__` (base.py:119-140): default
implementation returns `cls(*seq)`. -/
def fromYamlListMeth (cls : YClass) (seq : List Value) (yaml_tag : String) :
    Except PyError Obj :=
  match cls.fromYamlListOv with
  | some f => f seq yaml_tag
  | none => cls.ctor seq []

/-- `AbstractYamlObject.__from_yaml_scalar__` (base.py:96-117): default
implementation returns `cls(scalar)` where `scalar` is the raw string the
loader produced (never type-resolved). -/
def fromYamlScalarMeth (cls : YClass) (scalar : String) (yaml_tag : String) :
    Except PyError Obj :=
  match cls.fromYamlScalarOv with
  | some f => f scalar yaml_tag
  | none => cls.ctor [Value.vstr scalar] []

/-- `read_yaml_node_as_yamlobject` (base.py:316-343): dispatch on the node
shape (scalar, then sequence, then mapping) to the matching construction
method. -/
def read_yaml_node_as_yamlobject (cls : YClass) (node : Node) (yaml_tag : String) :
    Except PyError Obj :=
  match node with
  | .scalar s => fromYamlScalarMeth cls s yaml_tag
  | .sequence l => fromYamlListMeth cls l yaml_tag
  | .mapping m => fromYamlDictMeth cls m yaml_tag

/-- The fixed global yaml tag head for self-describing classes:
`YAMLABLE_PREFIX = '!yamlable/'` (main.py:31). -/
def YAMLABLE_TAG_HEAD : String := "!yamlable/"

/-- The result of `dumper.represent_mapping(tag, data)`: a mapping node with
an optional custom tag. -/
structure TaggedMapping where
  tag : Option String
  data : List (String × Value)

/-- `encode_yamlable` (main.py:254-282): compute `__to_yaml_dict__()`; without
a custom tag just emit the mapping; otherwise require a non-`None`
`__yaml_tag_suffix__` on the instance's class (raising `NotImplementedError`
when absent) and emit the mapping under `'!yamlable/' + suffix`. -/
def encode_yamlable (env : Nat → YClass) (obj : Obj) (without_custom_tag : Bool) :
    Except PyError TaggedMapping :=
  let new_data := toYamlDictMeth env obj
  if without_custom_tag then
    .ok ⟨none, new_data⟩
  else
    match (env obj.clsId).tagSuffix with
    | none =>
      .error (.notImplementedError ("object " ++ (env obj.clsId).name
        ++ " does not seem to have a non-None '__yaml_tag_suffix__' field. You can either "
        ++ "create one manually or by decorating your class with @yaml_info."))
    | some sfx => .ok ⟨some (YAMLABLE_TAG_HEAD ++ sfx), new_data⟩

/-! ## The decode dispatch loop of `decode_yamlable` (main.py:221-251) -/

/-- An entry of the `errors` dict built by `decode_yamlable`: either the
string `"yaml tag %r is not supported." % yaml_tag` recorded when a
candidate's check returns `False`, or the exception captured when the
candidate's try-block raises. -/
inductive ErrEntry where
  | unsupported (yaml_tag : String)
  | exc (e : PyError)

/-- Python `repr` of a captured exception, as it appears in `str(errors)`. -/
def pyErrorRepr : PyError → String
  | .notImplementedError m => "NotImplementedError('" ++ m ++ "')"
  | .typeError m => "TypeError('" ++ m ++ "')"
  | .valueError m => "ValueError('" ++ m ++ "')"

/-- Rendering of one `errors` dict value inside `str(errors)`. -/
def errEntryStr : ErrEntry → String
  | .unsupported tag => "\x22yaml tag '" ++ tag ++ "' is not supported.\x22"
  | .exc e => pyErrorRepr e

/-- `', '.join`, the separator-joined rendering used by Python's `str` on
containers. -/
def joinSep (sep : String) : List String → String
  | [] => ""
  | [x] => x
  | x :: y :: xs => x ++ sep ++ joinSep sep (y :: xs)

/-- `str(candidates)` for a list of classes. -/
def strOfClasses (cs : List YClass) : String :=
  "[" ++ joinSep ", " (cs.map (fun c => "<class '" ++ c.name ++ "'>")) ++ "]"

/-- `str(errors)` for the captured-errors dict. -/
def strOfErrors (errors : List (String × ErrEntry)) : String :=
  "\x7b" ++ joinSep ", " (errors.map (fun p => "'" ++ p.1 ++ "': " ++ errEntryStr p.2)) ++ "\x7d"

/-- The `TypeError` message raised when no candidate matches
(main.py:248-251). -/
def noHandlerMsg (yaml_tag : String) (cands : List YClass)
    (errors : List (String × ErrEntry)) : String :=
  "No YamlAble subclass found able to decode object '!yamlable/" ++ yaml_tag
    ++ "'. Tried classes: " ++ strOfClasses cands ++ ". Caught errors: " ++ strOfErrors errors
    ++ ". Please check the value of <cls>.__yaml_tag_suffix__ on these classes. Note that this "
    ++ "value may be set using @yaml_info() so help(yaml_info) might help too."

/-- Python dict assignment `m[k] = v`: overwrite in place when the key exists
(keeping the original insertion position), append otherwise. -/
def dictSet {β : Type} (m : List (String × β)) (k : String) (v : β) : List (String × β) :=
  if m.any (fun p => p.1 == k) then
    m.map (fun p => if p.1 == k then (k, v) else p)
  else
    m ++ [(k, v)]

/-- The `for clazz in candidates` loop of `decode_yamlable`: try each
candidate's `is_yaml_tag_supported`; on `True` return
`read_yaml_node_as_yamlobject`; on `False` record the unsupported-tag string;
any exception raised inside the try-block (by the check or by the
reconstruction) is captured into `errors` and the search continues.  When the
candidates are exhausted, raise the aggregated `TypeError`. -/
def decodeLoop (cands : List YClass) (yaml_tag : String) (node : Node) :
    List YClass → List (String × ErrEntry) → Except PyError Obj
  | [], errors => .error (.typeError (noHandlerMsg yaml_tag cands errors))
  | clazz :: rest, errors =>
    match is_yaml_tag_supported clazz yaml_tag with
    | .ok true =>
      match read_yaml_node_as_yamlobject clazz node yaml_tag with
      | .ok v => .ok v
      | .error e => decodeLoop cands yaml_tag node rest (dictSet errors clazz.name (.exc e))
    | .ok false =>
      decodeLoop cands yaml_tag node rest (dictSet errors clazz.name (.unsupported yaml_tag))
    | .error e => decodeLoop cands yaml_tag node rest (dictSet errors clazz.name (.exc e))

/-- `decode_yamlable` (main.py:221-251), parametrised by the candidate
enumeration (`_get_all_subclasses(YamlAble)` in the source; its order is
implementation defined). -/
def decode_yamlable (cands : List YClass) (yaml_tag : String) (node : Node) :
    Except PyError Obj :=
  decodeLoop cands yaml_tag node cands []

/-! ## The declarative annotation `yaml_info` / `yaml_info_decorate`
(main.py:149-217) -/

/-- The installation phase of `yaml_info_decorate` (main.py:199-217), run
once the suffix `t` is resolved: unsupported on `YamlObject2` subclasses, a
`ValueError` if the suffix starts with `'!'`, otherwise set
`__yaml_tag_suffix__` on the class; non-`YamlAble` classes are a
`TypeError`. -/
def yaml_info_set_tag (cls : YClass) (t : String) : Except PyError YClass :=
  if cls.isYamlObject2Sub then
    .error (.typeError "This is not supported")
  else if cls.isYamlAbleSub then
    if t.data.head? = some '!' then
      .error (.valueError ("When extending YamlAble, the `yaml_tag` field should only contain "
        ++ "the yaml tag suffix, and should therefore NOT start with !"))
    else
      .ok { cls with tagSuffix := some t, ownSuffix := true }
  else
    .error (.typeError "classes tagged with @yaml_info should be subclasses of YamlAble or YamlObject2")

/-- `yaml_info_decorate(cls, yaml_tag, yaml_tag_ns)` (main.py:149-217):
resolve the suffix from the two optional arguments — both supplied, or
neither, is a `ValueError` raised at decoration time; a bare namespace
derives `ns + "." + cls.__name__` — then install it via
`yaml_info_set_tag`. -/
def yaml_info_decorate (cls : YClass) (yaml_tag : Option String)
    (yaml_tag_ns : Option String) : Except PyError YClass :=
  match yaml_tag_ns, yaml_tag with
  | some _, some _ =>
    .error (.valueError "Only one of 'yaml_tag' and 'yaml_tag_ns' should be provided")
  | some ns, none => yaml_info_set_tag cls (ns ++ "." ++ cls.name)
  | none, none =>
    .error (.valueError "One non-None `yaml_tag` or `yaml_tag_ns` must be provided.")
  | none, some t => yaml_info_set_tag cls t

/-! ## Multi-type codecs: `YamlCodec` (main.py:371-570) -/

/-- `isinstance(v, collections.Mapping)`. -/
def Value.isMapping : Value → Bool
  | .vmap _ => true
  | _ => false

/-- `isinstance(v, str)`. -/
def Value.isStr : Value → Bool
  | .vstr _ => true
  | _ => false

def Value.asMapping : Value → List (String × Value)
  | .vmap m => m
  | _ => []

def Value.asStr : Value → String
  | .vstr s => s
  | _ => ""

/-- A concrete `YamlCodec` subclass.  `get_yaml_pfx` is the value returned by
its `get_yaml_prefix` classmethod; `is_yaml_tag_supported` its tag predicate;
`from_yaml_dict` and `to_yaml_dict` its mandatory abstract methods
(`to_yaml_dict` returns a pair of dynamically-typed values, checked by
`encode`); `fromYamlScalarOv` / `fromYamlListOv` model optional overrides of
`from_yaml_scalar` / `from_yaml_list` (`none` = the raising default);
`get_known_types` lists the names of the types it can encode. -/
structure YamlCodec where
  get_yaml_pfx : String
  is_yaml_tag_supported : String → Bool
  from_yaml_dict : String → List (String × Value) → Except PyError Value
  to_yaml_dict : Value → Except PyError (Value × Value)
  fromYamlScalarOv : Option (String → String → Except PyError Value) := none
  fromYamlListOv : Option (String → List Value → Except PyError Value) := none
  get_known_types : List String := []

/-- The `NotImplementedError` message of the default `YamlCodec.from_yaml_scalar`
(main.py:445-460). -/
def scalar_not_supported_msg : String :=
  "This codec does not support loading objects from " ++ "scalar"
    ++ ". Please override `" ++ "from_yaml_scalar" ++ "` to support this feature."

/-- The `NotImplementedError` message of the default `YamlCodec.from_yaml_list`
(main.py:462-477). -/
def sequence_not_supported_msg : String :=
  "This codec does not support loading objects from " ++ "sequence"
    ++ ". Please override `" ++ "from_yaml_list" ++ "` to support this feature."

/-- `YamlCodec.from_yaml_scalar` (main.py:445-460): default raises. -/
def YamlCodec.fromYamlScalarMeth (c : YamlCodec) (yaml_tag_suffix : String) (scalar : String) :
    Except PyError Value :=
  match c.fromYamlScalarOv with
  | some f => f yaml_tag_suffix scalar
  | none => .error (.notImplementedError scalar_not_supported_msg)

/-- `YamlCodec.from_yaml_list` (main.py:462-477): default raises. -/
def YamlCodec.fromYamlListMeth (c : YamlCodec) (yaml_tag_suffix : String) (seq : List Value) :
    Except PyError Value :=
  match c.fromYamlListOv with
  | some f => f yaml_tag_suffix seq
  | none => .error (.notImplementedError sequence_not_supported_msg)

/-- `YamlCodec.decode` (main.py:399-430): when the codec supports the tag
suffix, dispatch on the node shape; otherwise fall off the end of the function
and return `None`. -/
def YamlCodec.decode (c : YamlCodec) (yaml_tag_suffix : String) (node : Node) :
    Except PyError (Option Value) :=
  if c.is_yaml_tag_supported yaml_tag_suffix then
    match node with
    | .scalar s => (c.fromYamlScalarMeth yaml_tag_suffix s).map some
    | .sequence l => (c.fromYamlListMeth yaml_tag_suffix l).map some
    | .mapping m => (c.from_yaml_dict yaml_tag_suffix m).map some
  else
    .ok none

/-- The tag-head normalization inside `YamlCodec.encode` (main.py:532-534):
`if len(prefix) == 0 or prefix[-1] != '/': prefix = prefix + '/'`. -/
def normPfx (p : String) : String :=
  if p.length == 0 || p.data.getLast? != some '/' then p ++ "/" else p

/-- The `TypeError` message of `YamlCodec.encode` for malformed
`to_yaml_dict` results (main.py:523-525). -/
def malformed_to_yaml_dict_msg : String :=
  "`to_yaml_dict` did not return correct results. It should return a tuple of "
    ++ "`yaml_tag_suffix, obj_as_dict`"

/-- `YamlCodec.encode` (main.py:506-536): call `to_yaml_dict`; if the returned
representation is not a mapping or the returned suffix is not a string, raise
`TypeError`; otherwise emit the mapping, under the normalized
`prefix + suffix` tag unless `without_custom_tag`. -/
def YamlCodec.encode (c : YamlCodec) (obj : Value) (without_custom_tag : Bool) :
    Except PyError TaggedMapping :=
  match c.to_yaml_dict obj with
  | .error e => .error e
  | .ok (yaml_tag_suffix, obj_as_dict) =>
    if !obj_as_dict.isMapping || !yaml_tag_suffix.isStr then
      .error (.typeError malformed_to_yaml_dict_msg)
    else if without_custom_tag then
      .ok ⟨none, obj_as_dict.asMapping⟩
    else
      .ok ⟨some (normPfx c.get_yaml_pfx ++ yaml_tag_suffix.asStr), obj_as_dict.asMapping⟩

/-- The multi-constructor table of a pyyaml loader: tag head ↦ handler id
(`Loader.yaml_multi_constructors`). -/
structure LoaderState where
  multi_constructors : List (String × Nat)
  deriving DecidableEq

/-- The multi-representer table of a pyyaml dumper: type name ↦ handler id
(`Dumper.yaml_multi_representers`). -/
structure DumperState where
  multi_representers : List (String × Nat)
  deriving DecidableEq

/-- `YamlCodec.register_with_pyyaml` (main.py:551-570): on every loader,
`add_multi_constructor(cls.get_yaml_prefix(), cls.decode)` — note the raw,
unnormalized value is used as the key; on every dumper, register the encode
hook for each known type.  `cid` identifies this codec's bound
`decode`/`encode` methods. -/
def YamlCodec.register_with_pyyaml (c : YamlCodec) (cid : Nat)
    (loaders : List LoaderState) (dumpers : List DumperState) :
    List LoaderState × List DumperState :=
  (loaders.map (fun L => ⟨dictSet L.multi_constructors c.get_yaml_pfx cid⟩),
   dumpers.map (fun D =>
     ⟨c.get_known_types.foldl (fun tbl t => dictSet tbl t cid) D.multi_representers⟩))

/-! ## Subclass enumeration: `_get_all_subclasses` (main.py:315-367)

A Python class hierarchy is a finite acyclic graph: classes are numbered in
declaration order, `subs i` is `i.__subclasses__()` (the direct subclasses,
each declared after its bases, hence with a strictly larger number). -/

/-- A snapshot of a Python class hierarchy. -/
structure ClassGraph where
  n : Nat
  subs : Fin n → List (Fin n)
  acyclic : ∀ i : Fin n, ∀ j ∈ subs i, i.val < j.val

/-- Fuel-indexed descendant test (`issubclass(t, typ)` restricted to the
hierarchy).  Any fuel of at least `g.n` is exact, since subclass chains
strictly increase the class number. -/
def reachF (g : ClassGraph) : Nat → Fin g.n → Fin g.n → Bool
  | 0, _, _ => false
  | fuel + 1, typ, t => t == typ || (g.subs typ).any (fun s => reachF g fuel s t)

/-- `issubclass(t, typ)` within the hierarchy `g`. -/
def reach (g : ClassGraph) (typ t : Fin g.n) : Bool :=
  reachF g g.n typ t

/-- Propositional reachability along direct-subclass edges (reflexive). -/
inductive Reaches (g : ClassGraph) : Fin g.n → Fin g.n → Prop
  | refl (a : Fin g.n) : Reaches g a a
  | step {a c : Fin g.n} {b : Fin g.n} (hb : b ∈ g.subs a) (h : Reaches g b c) : Reaches g a c

/-- The first `for t in sub_list` loop of `_get_all_subclasses`
(main.py:345-356): collect the direct subclasses, skipping `typ` itself,
duplicates, and non-subclasses. -/
def firstPass (g : ClassGraph) (typ : Fin g.n) : List (Fin g.n) :=
  (g.subs typ).foldl
    (fun r t => if t ≠ typ ∧ t ∉ r ∧ reach g typ t = true then r ++ [t] else r) []

/-- The nested `for typpp in sub_list: for t in _get_all_subclasses(typpp, …)`
loop (main.py:359-365): recurse into each direct subclass, threading the
shared `_memo` set, and keep each returned class unless it is itself a direct
subclass of `typ` or fails `issubclass(t, typ)`. -/
def gasLoop (g : ClassGraph) (typ : Fin g.n)
    (rec : Fin g.n → List (Fin g.n) → List (Fin g.n) × List (Fin g.n)) :
    List (Fin g.n) → List (Fin g.n) → List (Fin g.n) × List (Fin g.n)
  | [], memo => ([], memo)
  | t :: ts, memo =>
    let r := rec t memo
    let rest := gasLoop g typ rec ts r.2
    ((r.1.filter fun x => !decide (x ∈ g.subs typ) && reach g typ x) ++ rest.1, rest.2)

/-- `_get_all_subclasses(typ, recursive, _memo)` (main.py:315-367), fuel
indexed (the fuel only bounds the recursion depth; `g.n + 1` always
suffices).  Returns the result list together with the updated `_memo`: if
`typ` was already explored return `[]`; else mark it, run the first loop over
its direct subclasses, and if `recursive`, also the nested recursion loop
(which always passes `recursive=True` downwards). -/
def gasF (g : ClassGraph) : Nat → Fin g.n → Bool → List (Fin g.n) →
    List (Fin g.n) × List (Fin g.n)
  | 0, _, _, memo => ([], memo)
  | fuel + 1, typ, recursive, memo =>
    if typ ∈ memo then ([], memo)
    else
      match recursive with
      | true =>
        let rest := gasLoop g typ (fun t m => gasF g fuel t true m) (g.subs typ) (typ :: memo)
        (firstPass g typ ++ rest.1, rest.2)
      | false => (firstPass g typ, typ :: memo)

/-- `_get_all_subclasses(typ)` with the default arguments (`recursive=True`,
fresh `_memo`), as called from `decode_yamlable` (main.py:235). -/
def get_all_subclasses (g : ClassGraph) (typ : Fin g.n) : List (Fin g.n) :=
  (gasF g (g.n + 1) typ true []).1

/-! ## Helper lemmas: substrings -/

/-- The middle part of a three-way concatenation is a substring. -/
theorem strInfix_mid (a x b : String) : x.data <:+: (a ++ x ++ b).data :=
  ⟨a.data, b.data, by simp [String.data_append]⟩

/-- The right part of a concatenation is a substring. -/
theorem strInfix_right (a x : String) : x.data <:+: (a ++ x).data :=
  ⟨a.data, [], by simp [String.data_append]⟩

/-- The left part of a concatenation is a substring. -/
theorem strInfix_left (x b : String) : x.data <:+: (x ++ b).data :=
  ⟨[], b.data, by simp [String.data_append]⟩

/-- Every member of a separator-joined list is a substring of the join. -/
theorem strInfix_joinSep (sep : String) :
    ∀ (l : List String), ∀ x ∈ l, x.data <:+: (joinSep sep l).data := by
  intro l
  induction l with
  | nil => intro x hx; cases hx
  | cons x0 tl ih =>
    intro x hx
    match tl, hx with
    | [], hx =>
      rw [List.mem_singleton.mp hx]
      exact List.infix_rfl
    | y :: ys, hx =>
      rcases List.mem_cons.mp hx with rfl | hmem
      · exact (strInfix_left x (sep ++ joinSep sep (y :: ys))).trans
          ⟨[], [], by simp [joinSep, String.data_append]⟩
      · exact ((ih x hmem).trans (strInfix_right (x0 ++ sep) (joinSep sep (y :: ys)))).trans
          ⟨[], [], by simp [joinSep, String.data_append]⟩

/-! ## Helper lemmas: the captured-errors dict -/

/-- Assigning a fresh key into a Python dict appends the pair. -/
theorem dictSet_fresh {β : Type} (m : List (String × β)) (k : String) (v : β)
    (h : ∀ p ∈ m, p.1 ≠ k) : dictSet m k v = m ++ [(k, v)] := by
  unfold dictSet
  rw [if_neg]
  simp only [List.any_eq_true, beq_iff_eq, not_exists]
  intro p hp
  exact h p hp.1 hp.2

/-- The `errors` entry recorded for one non-matching candidate of
`decode_yamlable`: the unsupported-tag string when the check returned `False`,
the captured exception when it raised. -/
def captureEntry (c : YClass) (tag : String) : ErrEntry :=
  match is_yaml_tag_supported c tag with
  | .ok _ => .unsupported tag
  | .error e => .exc e

/-- Folding fresh, pairwise-distinct keys into a dict appends the
corresponding pairs in order. -/
theorem foldl_dictSet_fresh (tag : String) :
    ∀ (l : List YClass) (es : List (String × ErrEntry)),
      (∀ c ∈ l, ∀ p ∈ es, p.1 ≠ c.name) → (l.map YClass.name).Nodup →
      l.foldl (fun es c => dictSet es c.name (captureEntry c tag)) es
        = es ++ l.map (fun c => (c.name, captureEntry c tag)) := by
  intro l
  induction l with
  | nil => intro es _ _; simp
  | cons c cs ih =>
    intro es hfresh hnd
    rw [List.map_cons, List.nodup_cons] at hnd
    rw [List.foldl_cons,
      dictSet_fresh es c.name (captureEntry c tag) (fun p hp => hfresh c (by simp) p hp),
      ih (es ++ [(c.name, captureEntry c tag)]) ?_ hnd.2]
    · simp
    · intro c' hc' p hp
      rcases List.mem_append.mp hp with hp | hp
      · exact hfresh c' (List.mem_cons_of_mem _ hc') p hp
      · rw [List.mem_singleton.mp hp]
        intro hEq
        have hEq' : c.name = c'.name := hEq
        exact hnd.1 (by rw [hEq']; exact List.mem_map_of_mem YClass.name hc')

/-! ## Helper lemmas: the decode dispatch loop -/

/-- Candidates whose `is_yaml_tag_supported` does not return `True` are
skipped, each leaving its entry in the `errors` dict. -/
theorem decodeLoop_skip (cands : List YClass) (tag : String) (node : Node)
    (pre : List YClass) :
    ∀ (rest : List YClass) (errors : List (String × ErrEntry)),
      (∀ p ∈ pre, is_yaml_tag_supported p tag ≠ .ok true) →
      decodeLoop cands tag node (pre ++ rest) errors
        = decodeLoop cands tag node rest
            (pre.foldl (fun es c => dictSet es c.name (captureEntry c tag)) errors) := by
  induction pre with
  | nil => intro rest errors _; rfl
  | cons p ps ih =>
    intro rest errors h
    have hp := h p (List.mem_cons_self _ _)
    rw [List.cons_append]
    cases hres : is_yaml_tag_supported p tag with
    | error e =>
      simp only [decodeLoop, hres]
      rw [ih rest _ (fun q hq => h q (List.mem_cons_of_mem _ hq)), List.foldl_cons]
      simp only [captureEntry, hres]
    | ok b =>
      cases b with
      | false =>
        simp only [decodeLoop, hres]
        rw [ih rest _ (fun q hq => h q (List.mem_cons_of_mem _ hq)), List.foldl_cons]
        simp only [captureEntry, hres]
      | true => exact absurd hres hp

/-- When no candidate supports the tag, the loop raises the aggregated
`TypeError` over the full errors dict. -/
theorem decodeLoop_all_fail (cands : List YClass) (tag : String) (node : Node)
    (l : List YClass) (errors : List (String × ErrEntry))
    (h : ∀ p ∈ l, is_yaml_tag_supported p tag ≠ .ok true) :
    decodeLoop cands tag node l errors
      = .error (.typeError (noHandlerMsg tag cands
          (l.foldl (fun es c => dictSet es c.name (captureEntry c tag)) errors))) := by
  have := decodeLoop_skip cands tag node l [] errors h
  rw [List.append_nil] at this
  rw [this]
  rfl

/-- The first candidate whose check returns `True` and whose reconstruction
succeeds determines the loop's result. -/
theorem decodeLoop_first_match (cands : List YClass) (tag : String) (node : Node)
    (c : YClass) (rest : List YClass) (errors : List (String × ErrEntry)) (v : Obj)
    (hc : is_yaml_tag_supported c tag = .ok true)
    (hv : read_yaml_node_as_yamlobject c node tag = .ok v) :
    decodeLoop cands tag node (c :: rest) errors = .ok v := by
  simp only [decodeLoop, hc, hv]

/-- Extending a string on the right preserves substrings. -/
theorem strInfix_extend_right {x : List Char} (y z : String) (h : x <:+: y.data) :
    x <:+: (y ++ z).data :=
  h.trans (strInfix_left y z)

/-- `str(candidates)` occurs inside the no-handler message. -/
theorem strOfClasses_infix_noHandlerMsg (tag : String) (cands : List YClass)
    (errors : List (String × ErrEntry)) :
    (strOfClasses cands).data <:+: (noHandlerMsg tag cands errors).data :=
  strInfix_extend_right _ _ (strInfix_extend_right _ _ (strInfix_extend_right _ _
    (strInfix_extend_right _ _ (strInfix_right _ (strOfClasses cands)))))

/-- `str(errors)` occurs inside the no-handler message. -/
theorem strOfErrors_infix_noHandlerMsg (tag : String) (cands : List YClass)
    (errors : List (String × ErrEntry)) :
    (strOfErrors errors).data <:+: (noHandlerMsg tag cands errors).data :=
  strInfix_extend_right _ _ (strInfix_extend_right _ _
    (strInfix_right _ (strOfErrors errors)))

/-! ## Concrete examples used by the spec and the tests -/

/-- The constructor of the documentation's example type `Foo(a, b="default")`:
Python argument binding for that signature, recording `vars(self) = {a:…, b:…}`. -/
def fooCtor (pos : List Value) (kw : List (String × Value)) : Except PyError Obj :=
  if kw.any (fun p => p.1 != "a" && p.1 != "b") then
    .error (.typeError "__init__() got an unexpected keyword argument")
  else
    match pos with
    | [] =>
      match List.lookup "a" kw with
      | none => .error (.typeError "__init__() missing 1 required positional argument: 'a'")
      | some va => .ok ⟨0, [("a", va), ("b", (List.lookup "b" kw).getD (Value.vstr "default"))]⟩
    | [va] =>
      if kw.any (fun p => p.1 == "a") then
        .error (.typeError "__init__() got multiple values for argument 'a'")
      else
        .ok ⟨0, [("a", va), ("b", (List.lookup "b" kw).getD (Value.vstr "default"))]⟩
    | [va, vb] =>
      if kw.any (fun p => p.1 == "a" || p.1 == "b") then
        .error (.typeError "__init__() got multiple values for argument")
      else
        .ok ⟨0, [("a", va), ("b", vb)]⟩
    | _ => .error (.typeError "__init__() takes from 2 to 3 positional arguments")

/-- `Foo(a, b="default")` as a properly tagged `YamlAble` subclass (all four
yaml construction/representation methods left at their defaults). -/
def fooCls : YClass :=
  { name := "Foo", tagSuffix := some "yaml.tests.Foo", ownSuffix := true, ctor := fooCtor }

/-- A subclass of `Foo` that does not redeclare `__yaml_tag_suffix__`. -/
def fooChild : YClass := pythonSubclass fooCls "FooChild" fooCtor

/-- A second, unrelated tagged class. -/
def barCls : YClass :=
  { name := "Bar", tagSuffix := some "yaml.tests.Bar", ownSuffix := true, ctor := fooCtor }

/-- The environment resolving class ids (the example only uses `Foo`). -/
def fooEnv : Nat → YClass := fun _ => fooCls

/-- `Foo(1, "default")` with its instance dict. -/
def fooObj : Obj := ⟨0, [("a", .vint 1), ("b", .vstr "default")]⟩

/-- A codec (over some mapping-shaped type) with mandatory methods only:
`from_yaml_scalar` / `from_yaml_list` keep their raising defaults. -/
def mapCodec : YamlCodec :=
  { get_yaml_pfx := "!mycodec/"
  , is_yaml_tag_supported := fun s => s == "yaml.tests.Foo"
  , from_yaml_dict := fun _ d => .ok (.vmap d)
  , to_yaml_dict := fun v => .ok (.vstr "yaml.tests.Foo", v) }

/-- A codec whose `to_yaml_dict` returns neither a string suffix nor a
mapping representation. -/
def badOutputCodec : YamlCodec :=
  { get_yaml_pfx := "!mycodec/"
  , is_yaml_tag_supported := fun _ => true
  , from_yaml_dict := fun _ d => .ok (.vmap d)
  , to_yaml_dict := fun _ => .ok (.vint 0, .vstr "oops") }

/-! ## The claims -/

/-- C3: for the example type `Foo(a, b="default")` with all construction
methods at their defaults, decoding the mapping node `{a: 1}` calls
`cls(**dct)` and yields `Foo(a=1, b="default")`; decoding the sequence node
`[1]` calls `cls(*seq)` and yields the same object; decoding the scalar node
`1` passes the raw, non type-resolved scalar string positionally, calling
`cls("1")`, and yields `Foo(a="1", b="default")` — the scalar stays a string,
never a number. -/
theorem C3_mapping_sequence_scalar_construction :
    read_yaml_node_as_yamlobject fooCls (.mapping [("a", .vint 1)]) "yaml.tests.Foo"
      = .ok ⟨0, [("a", .vint 1), ("b", .vstr "default")]⟩ ∧
    read_yaml_node_as_yamlobject fooCls (.sequence [.vint 1]) "yaml.tests.Foo"
      = .ok ⟨0, [("a", .vint 1), ("b", .vstr "default")]⟩ ∧
    read_yaml_node_as_yamlobject fooCls (.scalar "1") "yaml.tests.Foo"
      = .ok ⟨0, [("a", .vstr "1"), ("b", .vstr "default")]⟩ :=
  ⟨rfl, rfl, rfl⟩

/-- C6: whenever a codec's `to_yaml_dict` returns a representation that is
not a key-value mapping, or a suffix that is not a string, `YamlCodec.encode`
raises `TypeError` and emits nothing (for either value of
`without_custom_tag`). -/
theorem C6_malformed_codec_output (c : YamlCodec) (obj sfxv dv : Value)
    (without_custom_tag : Bool)
    (hret : c.to_yaml_dict obj = .ok (sfxv, dv))
    (hbad : dv.isMapping = false ∨ sfxv.isStr = false) :
    c.encode obj without_custom_tag = .error (.typeError malformed_to_yaml_dict_msg) := by
  unfold YamlCodec.encode
  rw [hret]
  rcases hbad with h | h <;> simp [h]

/-- C6 witness: a concrete codec returning `(0, "oops")` is rejected. -/
theorem C6_malformed_codec_output_witness :
    badOutputCodec.encode .vnone false = .error (.typeError malformed_to_yaml_dict_msg) :=
  C6_malformed_codec_output badOutputCodec .vnone (.vint 0) (.vstr "oops") false rfl
    (Or.inl rfl)

/-- C7: for a codec that keeps the default `from_yaml_scalar` (resp.
`from_yaml_list`), decoding a supported tag whose node is a scalar (resp. a
sequence) raises a `NotImplementedError` whose message names the node shape
("scalar" / "sequence") and the method to override (`from_yaml_scalar` /
`from_yaml_list`) — not a generic decode failure. -/
theorem C7_codec_default_shape_errors (c : YamlCodec) (sfx s : String) (l : List Value)
    (hsup : c.is_yaml_tag_supported sfx = true)
    (hsc : c.fromYamlScalarOv = none) (hsq : c.fromYamlListOv = none) :
    (c.decode sfx (.scalar s) = .error (.notImplementedError scalar_not_supported_msg) ∧
     c.decode sfx (.sequence l) = .error (.notImplementedError sequence_not_supported_msg)) ∧
    ("scalar".data <:+: scalar_not_supported_msg.data ∧
     "from_yaml_scalar".data <:+: scalar_not_supported_msg.data) ∧
    ("sequence".data <:+: sequence_not_supported_msg.data ∧
     "from_yaml_list".data <:+: sequence_not_supported_msg.data) := by
  refine ⟨⟨?_, ?_⟩, ⟨by decide, by decide⟩, ⟨by decide, by decide⟩⟩ <;>
    simp [YamlCodec.decode, hsup, YamlCodec.fromYamlScalarMeth, YamlCodec.fromYamlListMeth,
      hsc, hsq, Except.map]

/-- C7 witness: the concrete `mapCodec` on its supported tag. -/
theorem C7_codec_default_shape_errors_witness :
    (mapCodec.decode "yaml.tests.Foo" (.scalar "x")
        = .error (.notImplementedError scalar_not_supported_msg) ∧
     mapCodec.decode "yaml.tests.Foo" (.sequence [])
        = .error (.notImplementedError sequence_not_supported_msg)) ∧
    ("scalar".data <:+: scalar_not_supported_msg.data ∧
     "from_yaml_scalar".data <:+: scalar_not_supported_msg.data) ∧
    ("sequence".data <:+: sequence_not_supported_msg.data ∧
     "from_yaml_list".data <:+: sequence_not_supported_msg.data) :=
  C7_codec_default_shape_errors mapCodec "yaml.tests.Foo" "x" [] rfl rfl rfl

/-- C10: for every codec and every tag suffix its `is_yaml_tag_supported`
rejects, `YamlCodec.decode` silently returns `None` — no error, no
construction attempt — whatever the node looks like. -/
theorem C10_codec_unsupported_tag_returns_none (c : YamlCodec) (sfx : String) (node : Node)
    (h : c.is_yaml_tag_supported sfx = false) :
    c.decode sfx node = .ok none := by
  simp [YamlCodec.decode, h]

/-- C10 witness: `mapCodec` on an unknown suffix. -/
theorem C10_codec_unsupported_tag_returns_none_witness :
    mapCodec.decode "unknown.suffix" (.mapping []) = .ok none :=
  C10_codec_unsupported_tag_returns_none mapCodec "unknown.suffix" (.mapping []) rfl

/-- C4: creating a `YamlAble` subclass that never sets its own tag suffix
succeeds (it merely inherits the attribute); the failure comes exactly when a
tag-requiring operation runs: `is_yaml_tag_supported` raises
`NotImplementedError` when the class holds no non-`None`
`__yaml_tag_suffix__`, raises `TypeError` when a non-`None` suffix is only
inherited rather than redefined on the class, and `encode_yamlable` raises
`NotImplementedError` when the instance's class has no non-`None` suffix. -/
theorem C4_missing_suffix_fails_lazily :
    (∀ (parent : YClass) (nm : String)
        (cf : List Value → List (String × Value) → Except PyError Obj),
        (pythonSubclass parent nm cf).tagSuffix = parent.tagSuffix ∧
        (pythonSubclass parent nm cf).ownSuffix = false) ∧
    (∀ (cls : YClass) (tag : String), cls.tagSuffix = none →
        ∃ m, is_yaml_tag_supported cls tag = .error (.notImplementedError m)) ∧
    (∀ (cls : YClass) (tag sfx : String), cls.tagSuffix = some sfx → cls.ownSuffix = false →
        ∃ m, is_yaml_tag_supported cls tag = .error (.typeError m)) ∧
    (∀ (env : Nat → YClass) (obj : Obj), (env obj.clsId).tagSuffix = none →
        ∃ m, encode_yamlable env obj false = .error (.notImplementedError m)) := by
  refine ⟨fun parent nm cf => ⟨rfl, rfl⟩, ?_, ?_, ?_⟩
  · intro cls tag h
    exact ⟨_, by unfold is_yaml_tag_supported; rw [h]⟩
  · intro cls tag sfx h1 h2
    exact ⟨_, by unfold is_yaml_tag_supported; rw [h1, h2]; rfl⟩
  · intro env obj h
    exact ⟨_, by unfold encode_yamlable; rw [h]; rfl⟩

/-- An abstract base marking itself abstract by an explicit `None` suffix. -/
def abstractCls : YClass :=
  { name := "MyAbstract", tagSuffix := none, ownSuffix := true, ctor := fooCtor }

/-- A concrete subclass that forgot to claim a tag. -/
def concreteNoTag : YClass := pythonSubclass abstractCls "ConcreteNoTag" fooCtor

/-- C4 witness: concrete classes exercising all four parts. -/
theorem C4_missing_suffix_fails_lazily_witness :
    (concreteNoTag.tagSuffix = abstractCls.tagSuffix ∧ concreteNoTag.ownSuffix = false) ∧
    (∃ m, is_yaml_tag_supported concreteNoTag "any.tag" = .error (.notImplementedError m)) ∧
    (∃ m, is_yaml_tag_supported fooChild "yaml.tests.Foo" = .error (.typeError m)) ∧
    (∃ m, encode_yamlable (fun _ => concreteNoTag) ⟨0, []⟩ false
        = .error (.notImplementedError m)) :=
  ⟨C4_missing_suffix_fails_lazily.1 abstractCls "ConcreteNoTag" fooCtor,
   C4_missing_suffix_fails_lazily.2.1 concreteNoTag "any.tag" rfl,
   C4_missing_suffix_fails_lazily.2.2.1 fooChild "yaml.tests.Foo" "yaml.tests.Foo" rfl rfl,
   C4_missing_suffix_fails_lazily.2.2.2 (fun _ => concreteNoTag) ⟨0, []⟩ rfl⟩

/-- C5: for `yaml_info_decorate` on a `YamlAble` class, all checked at
decoration time: supplying only a namespace sets the suffix to
`namespace + "." + class name`; supplying both a full suffix and a namespace
raises `ValueError`; supplying neither raises `ValueError`; and a full suffix
beginning with the reserved `'!'` delimiter raises `ValueError`. -/
theorem C5_yaml_info_declaration_rules :
    (∀ (cls : YClass) (ns : String), cls.isYamlObject2Sub = false →
        cls.isYamlAbleSub = true → (ns ++ "." ++ cls.name).data.head? ≠ some '!' →
        yaml_info_decorate cls none (some ns)
          = .ok { cls with tagSuffix := some (ns ++ "." ++ cls.name), ownSuffix := true }) ∧
    (∀ (cls : YClass) (t ns : String),
        ∃ m, yaml_info_decorate cls (some t) (some ns) = .error (.valueError m)) ∧
    (∀ cls : YClass, ∃ m, yaml_info_decorate cls none none = .error (.valueError m)) ∧
    (∀ (cls : YClass) (t : String), cls.isYamlObject2Sub = false →
        cls.isYamlAbleSub = true → t.data.head? = some '!' →
        ∃ m, yaml_info_decorate cls (some t) none = .error (.valueError m)) := by
  refine ⟨?_, ?_, ?_, ?_⟩
  · intro cls ns h1 h2 h3
    show yaml_info_set_tag cls (ns ++ "." ++ cls.name) = _
    unfold yaml_info_set_tag
    rw [h1, h2, if_neg h3]
    rfl
  · intro cls t ns
    exact ⟨_, rfl⟩
  · intro cls
    exact ⟨_, rfl⟩
  · intro cls t h1 h2 h3
    have hstep : yaml_info_decorate cls (some t) none = yaml_info_set_tag cls t := rfl
    rw [hstep]
    unfold yaml_info_set_tag
    rw [h1, h2, if_pos h3]
    exact ⟨_, rfl⟩

/-- A yet-undecorated `YamlAble` subclass. -/
def plainCls : YClass :=
  { name := "Foo2", tagSuffix := none, ownSuffix := false, ctor := fooCtor }

/-- C1: for a self-describing instance `f` whose class has a valid (non-`None`,
self-declared) tag suffix, keeps the default `__to_yaml_dict__` /
`__from_yaml_dict__`, resolves its tag first among the candidates, and whose
fields round-trip through its constructor, `encode_yamlable` emits the
`'!yamlable/' + suffix`-tagged mapping holding `vars(f)`, and
`decode_yamlable` on that mapping node reconstructs via `cls(**dct)` an
object whose `vars` equal `vars(f)`. -/
theorem C1_default_round_trip
    (env : Nat → YClass) (f f' : Obj) (sfx : String) (pre post : List YClass)
    (hsfx : (env f.clsId).tagSuffix = some sfx)
    (hown : (env f.clsId).ownSuffix = true)
    (htd : (env f.clsId).toYamlDictOv = none)
    (hfd : (env f.clsId).fromYamlDictOv = none)
    (hpre : ∀ p ∈ pre, is_yaml_tag_supported p sfx ≠ .ok true)
    (hctor : (env f.clsId).ctor [] f.fields = .ok f')
    (hvars : f'.fields = f.fields) :
    encode_yamlable env f false = .ok ⟨some (YAMLABLE_TAG_HEAD ++ sfx), f.fields⟩ ∧
    decode_yamlable (pre ++ (env f.clsId) :: post) sfx (.mapping f.fields) = .ok f' ∧
    f'.fields = f.fields := by
  have hnd : toYamlDictMeth env f = f.fields := by unfold toYamlDictMeth; rw [htd]
  refine ⟨?_, ?_, hvars⟩
  · simp only [encode_yamlable]
    rw [hsfx, hnd]
    rfl
  · show decodeLoop _ sfx (.mapping f.fields) (pre ++ (env f.clsId) :: post) [] = .ok f'
    rw [decodeLoop_skip _ sfx (.mapping f.fields) pre ((env f.clsId) :: post) [] hpre]
    refine decodeLoop_first_match _ sfx (.mapping f.fields) _ post _ f' ?_ ?_
    · simp [is_yaml_tag_supported, hsfx, hown]
    · show fromYamlDictMeth (env f.clsId) f.fields sfx = .ok f'
      unfold fromYamlDictMeth
      rw [hfd]
      exact hctor

/-- C1 witness: round-tripping `Foo(1, "default")` through encode and decode,
with a tagless sibling first in the candidate list. -/
theorem C1_default_round_trip_witness :
    encode_yamlable fooEnv fooObj false
      = .ok ⟨some (YAMLABLE_TAG_HEAD ++ "yaml.tests.Foo"), fooObj.fields⟩ ∧
    decode_yamlable [fooChild, fooCls] "yaml.tests.Foo" (.mapping fooObj.fields)
      = .ok fooObj ∧
    fooObj.fields = fooObj.fields :=
  C1_default_round_trip fooEnv fooObj fooObj "yaml.tests.Foo" [fooChild] []
    rfl rfl rfl rfl (by decide) rfl rfl

/-- C2: `decode_yamlable` returns the reconstruction of the first candidate
(in enumeration order) whose `is_yaml_tag_supported` returns `True` —
candidates whose check returns `False` or raises are recorded and skipped,
never aborting the search; and when no candidate supports the tag it raises a
`TypeError` whose message names every candidate tried and contains every
captured error. -/
theorem C2_first_match_and_aggregate_diagnostic (tag : String) (node : Node) :
    (∀ (pre post : List YClass) (c : YClass) (v : Obj),
        (∀ p ∈ pre, is_yaml_tag_supported p tag ≠ .ok true) →
        is_yaml_tag_supported c tag = .ok true →
        read_yaml_node_as_yamlobject c node tag = .ok v →
        decode_yamlable (pre ++ c :: post) tag node = .ok v) ∧
    (∀ cands : List YClass,
        (∀ c ∈ cands, is_yaml_tag_supported c tag ≠ .ok true) →
        (cands.map YClass.name).Nodup →
        decode_yamlable cands tag node
          = .error (.typeError (noHandlerMsg tag cands
              (cands.map (fun c => (c.name, captureEntry c tag))))) ∧
        ∀ c ∈ cands,
          c.name.data <:+: (noHandlerMsg tag cands
            (cands.map (fun c => (c.name, captureEntry c tag)))).data ∧
          (errEntryStr (captureEntry c tag)).data <:+: (noHandlerMsg tag cands
            (cands.map (fun c => (c.name, captureEntry c tag)))).data) := by
  constructor
  · intro pre post c v hpre hc hv
    show decodeLoop _ tag node (pre ++ c :: post) [] = .ok v
    rw [decodeLoop_skip _ tag node pre (c :: post) [] hpre]
    exact decodeLoop_first_match _ tag node c post _ v hc hv
  · intro cands hall hnd
    constructor
    · show decodeLoop cands tag node cands [] = _
      rw [decodeLoop_all_fail cands tag node cands [] hall,
        foldl_dictSet_fresh tag cands [] (fun c _ p hp => absurd hp (List.not_mem_nil p)) hnd,
        List.nil_append]
    · intro c hc
      constructor
      · have h1 : c.name.data <:+: ("<class '" ++ c.name ++ "'>").data :=
          strInfix_mid "<class '" c.name "'>"
        have h2 : ("<class '" ++ c.name ++ "'>").data
            <:+: (joinSep ", " (cands.map (fun c => "<class '" ++ c.name ++ "'>"))).data :=
          strInfix_joinSep ", " _ _ (List.mem_map_of_mem _ hc)
        have h3 : (joinSep ", " (cands.map (fun c => "<class '" ++ c.name ++ "'>"))).data
            <:+: (strOfClasses cands).data := strInfix_mid "[" _ "]"
        exact ((h1.trans h2).trans h3).trans (strOfClasses_infix_noHandlerMsg tag cands _)
      · have e1 : (errEntryStr (captureEntry c tag)).data
            <:+: ("'" ++ c.name ++ "': " ++ errEntryStr (captureEntry c tag)).data :=
          strInfix_right ("'" ++ c.name ++ "': ") _
        have e2 : ("'" ++ c.name ++ "': " ++ errEntryStr (captureEntry c tag)).data
            <:+: (joinSep ", " ((cands.map (fun c => (c.name, captureEntry c tag))).map
              (fun p => "'" ++ p.1 ++ "': " ++ errEntryStr p.2))).data :=
          strInfix_joinSep ", " _ _
            (List.mem_map_of_mem _ (List.mem_map_of_mem _ hc))
        have e3 : (joinSep ", " ((cands.map (fun c => (c.name, captureEntry c tag))).map
              (fun p => "'" ++ p.1 ++ "': " ++ errEntryStr p.2))).data
            <:+: (strOfErrors (cands.map (fun c => (c.name, captureEntry c tag)))).data :=
          strInfix_mid "\x7b" _ "\x7d"
        exact ((e1.trans e2).trans e3).trans (strOfErrors_infix_noHandlerMsg tag cands _)

/-- C2 witness: the second candidate wins after the first one's check raises;
and a two-candidate search with no match raises the aggregated diagnostic. -/
theorem C2_first_match_and_aggregate_diagnostic_witness :
    decode_yamlable [fooChild, fooCls] "yaml.tests.Foo" (.mapping [("a", .vint 2)])
      = .ok ⟨0, [("a", .vint 2), ("b", .vstr "default")]⟩ ∧
    (decode_yamlable [fooChild, barCls] "other.tag" (.mapping [])
        = .error (.typeError (noHandlerMsg "other.tag" [fooChild, barCls]
            ([fooChild, barCls].map (fun c => (c.name, captureEntry c "other.tag"))))) ∧
     ∀ c ∈ [fooChild, barCls],
       c.name.data <:+: (noHandlerMsg "other.tag" [fooChild, barCls]
         ([fooChild, barCls].map (fun c => (c.name, captureEntry c "other.tag")))).data ∧
       (errEntryStr (captureEntry c "other.tag")).data
         <:+: (noHandlerMsg "other.tag" [fooChild, barCls]
           ([fooChild, barCls].map (fun c => (c.name, captureEntry c "other.tag")))).data) :=
  ⟨(C2_first_match_and_aggregate_diagnostic "yaml.tests.Foo" (.mapping [("a", .vint 2)])).1
      [fooChild] [] fooCls ⟨0, [("a", .vint 2), ("b", .vstr "default")]⟩ (by decide) rfl rfl,
   (C2_first_match_and_aggregate_diagnostic "other.tag" (.mapping [])).2
      [fooChild, barCls] (by decide) (by decide)⟩

/-- A codec whose declared prefix does not end in `'/'`. -/
def noSlashCodec : YamlCodec :=
  { get_yaml_pfx := "mycodec"
  , is_yaml_tag_supported := fun _ => true
  , from_yaml_dict := fun _ d => .ok (.vmap d)
  , to_yaml_dict := fun v => .ok (.vstr "t", v) }

/-- C8 counterexample: the claim says the prefix under which the decode hook
is installed at registration ends in `'/'` even when `get_yaml_prefix`
returns a string not ending in `'/'`; but `register_with_pyyaml` installs the
hook under the raw `"mycodec"`, which does not end in `'/'` (while `encode`
emits the normalized `"mycodec/t"` tag, so the two disagree). -/
theorem C8_registration_uses_raw_pfx_counterexample :
    (noSlashCodec.register_with_pyyaml 0 [⟨[]⟩] []).1 = [⟨[("mycodec", 0)]⟩] ∧
    ("mycodec" : String).data.getLast? ≠ some '/' ∧
    noSlashCodec.encode (.vmap []) false = .ok ⟨some "mycodec/t", []⟩ :=
  ⟨rfl, by decide, rfl⟩

/-- C8 (amended): the tag emitted on encoding is `normalized prefix + suffix`
where the normalized prefix always ends in `'/'`; the decode hook, however,
is installed at registration under the raw `get_yaml_prefix` value,
unnormalized. -/
theorem C8_pfx_normalized_on_encode_only
    (c : YamlCodec) (cid : Nat) (loaders : List LoaderState) (dumpers : List DumperState)
    (obj : Value) (s : String) (m : List (String × Value))
    (hret : c.to_yaml_dict obj = .ok (.vstr s, .vmap m)) :
    c.encode obj false = .ok ⟨some (normPfx c.get_yaml_pfx ++ s), m⟩ ∧
    (normPfx c.get_yaml_pfx).data.getLast? = some '/' ∧
    (c.register_with_pyyaml cid loaders dumpers).1
      = loaders.map (fun L => ⟨dictSet L.multi_constructors c.get_yaml_pfx cid⟩) := by
  refine ⟨?_, ?_, rfl⟩
  · simp [YamlCodec.encode, hret, Value.isMapping, Value.isStr, Value.asMapping, Value.asStr]
  · unfold normPfx
    by_cases h : (c.get_yaml_pfx.length == 0 || c.get_yaml_pfx.data.getLast? != some '/') = true
    · rw [if_pos h, String.data_append]
      exact List.getLast?_concat _
    · rw [if_neg h]
      simp only [Bool.or_eq_true, beq_iff_eq, bne_iff_ne, not_or, not_not] at h
      exact h.2

/-- C8 witness: the amended statement at the concrete `noSlashCodec`. -/
theorem C8_pfx_normalized_on_encode_only_witness :
    noSlashCodec.encode (.vmap []) false
      = .ok ⟨some (normPfx noSlashCodec.get_yaml_pfx ++ "t"), []⟩ ∧
    (normPfx noSlashCodec.get_yaml_pfx).data.getLast? = some '/' ∧
    (noSlashCodec.register_with_pyyaml 0 [⟨[]⟩] []).1
      = [⟨dictSet [] noSlashCodec.get_yaml_pfx 0⟩] :=
  C8_pfx_normalized_on_encode_only noSlashCodec 0 [⟨[]⟩] [] (.vmap []) "t" [] rfl

/-! ## Helper lemmas: reachability in a class hierarchy -/

theorem Reaches_of_mem_subs (g : ClassGraph) {a t : Fin g.n} (h : t ∈ g.subs a) :
    Reaches g a t :=
  .step h (.refl t)

/-- Subclass chains only increase the declaration index. -/
theorem Reaches_le (g : ClassGraph) {a b : Fin g.n} (h : Reaches g a b) : a.val ≤ b.val := by
  induction h with
  | refl => exact le_refl _
  | step hb _ ih => exact le_of_lt (lt_of_lt_of_le (g.acyclic _ _ hb) ih)

theorem Reaches_trans (g : ClassGraph) {a b c : Fin g.n} (h1 : Reaches g a b) :
    Reaches g b c → Reaches g a c := by
  induction h1 with
  | refl => exact id
  | step hb _ ih => exact fun h2 => .step hb (ih h2)

theorem reachF_sound (g : ClassGraph) :
    ∀ (fuel : Nat) {a b : Fin g.n}, reachF g fuel a b = true → Reaches g a b := by
  intro fuel
  induction fuel with
  | zero => intro a b h; simp [reachF] at h
  | succ n ih =>
    intro a b h
    rw [reachF, Bool.or_eq_true] at h
    rcases h with h | h
    · rw [show b = a from beq_iff_eq.mp h]
      exact .refl a
    · obtain ⟨s, hs, hr⟩ := List.any_eq_true.mp h
      exact .step hs (ih hr)

theorem Reaches_reachF (g : ClassGraph) {a b : Fin g.n} (h : Reaches g a b) :
    ∀ fuel, g.n - a.val ≤ fuel → reachF g fuel a b = true := by
  induction h with
  | refl a =>
    intro fuel hf
    have ha := a.isLt
    obtain ⟨f, rfl⟩ : ∃ f, fuel = f + 1 := ⟨fuel - 1, by omega⟩
    simp [reachF]
  | step hb _ ih =>
    intro fuel hf
    rename_i a c b _
    have hab := g.acyclic _ _ hb
    have ha := a.isLt
    have hbn := b.isLt
    obtain ⟨f, rfl⟩ : ∃ f, fuel = f + 1 := ⟨fuel - 1, by omega⟩
    rw [reachF, Bool.or_eq_true]
    exact Or.inr (List.any_eq_true.mpr ⟨b, hb, ih f (by omega)⟩)

/-- The fuelled `issubclass` test is exact at fuel `g.n`. -/
theorem reach_iff (g : ClassGraph) {a b : Fin g.n} : reach g a b = true ↔ Reaches g a b :=
  ⟨reachF_sound g g.n, fun h => Reaches_reachF g h g.n (Nat.sub_le _ _)⟩

/-! ## Helper lemmas: the first loop of `_get_all_subclasses` -/

/-- Elements of the first-loop fold come from the accumulator or satisfied
the loop's guard. -/
theorem fp_mem_of_mem_foldl (g : ClassGraph) (typ : Fin g.n) :
    ∀ (l r : List (Fin g.n)) (x : Fin g.n),
      x ∈ l.foldl
        (fun r t => if t ≠ typ ∧ t ∉ r ∧ reach g typ t = true then r ++ [t] else r) r →
      x ∈ r ∨ (x ∈ l ∧ x ≠ typ ∧ reach g typ x = true) := by
  intro l
  induction l with
  | nil => intro r x hx; exact Or.inl hx
  | cons t ts ih =>
    intro r x hx
    rw [List.foldl_cons] at hx
    rcases ih _ x hx with hx' | hx'
    · by_cases hcond : t ≠ typ ∧ t ∉ r ∧ reach g typ t = true
      · rw [if_pos hcond] at hx'
        rcases List.mem_append.mp hx' with hx'' | hx''
        · exact Or.inl hx''
        · rw [List.mem_singleton.mp hx'']
          exact Or.inr ⟨List.mem_cons_self _ _, hcond.1, hcond.2.2⟩
      · rw [if_neg hcond] at hx'
        exact Or.inl hx'
    · exact Or.inr ⟨List.mem_cons_of_mem _ hx'.1, hx'.2⟩

/-- The first-loop fold preserves the accumulator's members. -/
theorem fp_mem_foldl_of_mem (g : ClassGraph) (typ : Fin g.n) :
    ∀ (l r : List (Fin g.n)) (x : Fin g.n), x ∈ r →
      x ∈ l.foldl
        (fun r t => if t ≠ typ ∧ t ∉ r ∧ reach g typ t = true then r ++ [t] else r) r := by
  intro l
  induction l with
  | nil => intro r x hx; exact hx
  | cons t ts ih =>
    intro r x hx
    rw [List.foldl_cons]
    refine ih _ x ?_
    by_cases hcond : t ≠ typ ∧ t ∉ r ∧ reach g typ t = true
    · rw [if_pos hcond]; exact List.mem_append_left _ hx
    · rw [if_neg hcond]; exact hx

/-- Every listed element passing the guard ends up in the first-loop fold. -/
theorem fp_mem_foldl_of_cond (g : ClassGraph) (typ : Fin g.n) :
    ∀ (l r : List (Fin g.n)) (x : Fin g.n), x ∈ l → x ≠ typ → reach g typ x = true →
      x ∈ l.foldl
        (fun r t => if t ≠ typ ∧ t ∉ r ∧ reach g typ t = true then r ++ [t] else r) r := by
  intro l
  induction l with
  | nil => intro r x hx; cases hx
  | cons t ts ih =>
    intro r x hx hne hr
    rw [List.foldl_cons]
    rcases List.mem_cons.mp hx with rfl | hx'
    · by_cases hmem : x ∈ r
      · refine fp_mem_foldl_of_mem g typ ts _ x ?_
        by_cases hcond : x ≠ typ ∧ x ∉ r ∧ reach g typ x = true
        · rw [if_pos hcond]; exact List.mem_append_left _ hmem
        · rw [if_neg hcond]; exact hmem
      · rw [if_pos ⟨hne, hmem, hr⟩]
        exact fp_mem_foldl_of_mem g typ ts _ x (List.mem_append_right _ (List.mem_singleton.mpr rfl))
    · exact ih _ x hx' hne hr

/-- Every direct subclass appears in the first loop's result. -/
theorem mem_firstPass_of_subs (g : ClassGraph) (typ : Fin g.n) {t : Fin g.n}
    (ht : t ∈ g.subs typ) : t ∈ firstPass g typ := by
  refine fp_mem_foldl_of_cond g typ (g.subs typ) [] t ht ?_ (reach_iff g |>.mpr (Reaches_of_mem_subs g ht))
  intro hEq
  exact absurd (g.acyclic typ t ht) (by rw [hEq]; omega)

/-- Everything in the first loop's result is a strict descendant. -/
theorem firstPass_desc (g : ClassGraph) (typ : Fin g.n) :
    ∀ x ∈ firstPass g typ, Reaches g typ x ∧ x ≠ typ := by
  intro x hx
  rcases fp_mem_of_mem_foldl g typ (g.subs typ) [] x hx with h | h
  · cases h
  · exact ⟨reach_iff g |>.mp h.2.2, h.2.1⟩

/-! ## The depth-first-search invariants of `_get_all_subclasses` -/

/-- All descendants of `c` (including `c`) are already in the memo `m`. -/
def ClosedIn (g : ClassGraph) (c : Fin g.n) (m : List (Fin g.n)) : Prop :=
  ∀ x, Reaches g c x → x ∈ m

theorem ClosedIn.mono {g : ClassGraph} {c : Fin g.n} {m m' : List (Fin g.n)}
    (h : ClosedIn g c m) (hsub : m ⊆ m') : ClosedIn g c m' :=
  fun x hx => hsub (h x hx)

/-- The shared `_memo` set invariant: every memoized class is either fully
explored (all its descendants are memoized too), or it is one of the
anchor classes `m₀` on the active ancestor chain of `typ`. -/
def MemoInv (g : ClassGraph) (m m₀ : List (Fin g.n)) (typ : Fin g.n) : Prop :=
  ∀ c ∈ m, ClosedIn g c m ∨ (Reaches g c typ ∧ c ∈ m₀)

/-- Invariant preservation and completeness of the nested recursion loop,
assuming the specification of `gasF` at the same fuel (supplied as `ih`). -/
theorem gasLoop_spec (g : ClassGraph) (fuel : Nat) (typ : Fin g.n)
    (ih : ∀ (t : Fin g.n) (m res out : List (Fin g.n)),
        g.n - t.val < fuel → MemoInv g m m t → gasF g fuel t true m = (res, out) →
        m ⊆ out ∧
        (∀ c ∈ out, c ∈ m ∨ c = t ∨ c ∈ res) ∧
        MemoInv g out m t ∧
        (∀ x ∈ res, Reaches g t x ∧ x ≠ t) ∧
        t ∈ out) :
    ∀ (l m m₀ res out : List (Fin g.n)),
      (∀ t ∈ l, t ∈ g.subs typ) →
      g.n - typ.val ≤ fuel →
      MemoInv g m m₀ typ →
      gasLoop g typ (fun t m => gasF g fuel t true m) l m = (res, out) →
      m ⊆ out ∧
      (∀ c ∈ out, c ∈ m ∨ c ∈ res ∨ c ∈ g.subs typ) ∧
      MemoInv g out m₀ typ ∧
      (∀ x ∈ res, Reaches g typ x ∧ x ≠ typ) ∧
      (∀ t ∈ l, t ∈ out) := by
  intro l
  induction l with
  | nil =>
    intro m m₀ res out _ _ hinv heq
    simp only [gasLoop, Prod.mk.injEq] at heq
    obtain ⟨rfl, rfl⟩ := heq
    exact ⟨fun c hc => hc, fun c hc => Or.inl hc, hinv,
      fun x hx => absurd hx (List.not_mem_nil x), fun t ht => absurd ht (List.not_mem_nil t)⟩
  | cons t ts ihl =>
    intro m m₀ res out hl hfuel hinv heq
    obtain ⟨r1, r2, hrpair⟩ : ∃ a b, gasF g fuel t true m = (a, b) := ⟨_, _, rfl⟩
    obtain ⟨q1, q2, hqpair⟩ : ∃ a b,
        gasLoop g typ (fun t m => gasF g fuel t true m) ts r2 = (a, b) := ⟨_, _, rfl⟩
    simp only [gasLoop, hrpair, hqpair, Prod.mk.injEq] at heq
    obtain ⟨rfl, rfl⟩ := heq
    have htsub : t ∈ g.subs typ := hl t (List.mem_cons_self _ _)
    have htlt : typ.val < t.val := g.acyclic typ t htsub
    have hreach_tt : Reaches g typ t := Reaches_of_mem_subs g htsub
    have hfr : g.n - t.val < fuel := by
      have := t.isLt
      omega
    have hinvt : MemoInv g m m t := by
      intro c hc
      rcases hinv c hc with hcl | ⟨hr, _⟩
      · exact Or.inl hcl
      · exact Or.inr ⟨Reaches_trans g hr hreach_tt, hc⟩
    obtain ⟨ha, hb, hc, hd, he⟩ := ih t m r1 r2 hfr hinvt hrpair
    have hinv2 : MemoInv g r2 m₀ typ := by
      intro c hcr
      rcases hc c hcr with hcl | ⟨_, hcm⟩
      · exact Or.inl hcl
      · rcases hinv c hcm with hcl' | ⟨hr', hm0'⟩
        · exact Or.inl (hcl'.mono ha)
        · exact Or.inr ⟨hr', hm0'⟩
    obtain ⟨qa, qb, qc, qd, qe⟩ := ihl r2 m₀ q1 q2
      (fun t' ht' => hl t' (List.mem_cons_of_mem _ ht')) hfuel hinv2 hqpair
    refine ⟨fun c hcm => qa (ha hcm), ?_, qc, ?_, ?_⟩
    · intro c hcq
      rcases qb c hcq with hc' | hc' | hc'
      · rcases hb c hc' with hcm | rfl | hcr
        · exact Or.inl hcm
        · exact Or.inr (Or.inr htsub)
        · by_cases hsub : c ∈ g.subs typ
          · exact Or.inr (Or.inr hsub)
          · refine Or.inr (Or.inl (List.mem_append_left _ ?_))
            refine List.mem_filter.mpr ⟨hcr, ?_⟩
            have hrc : Reaches g typ c := Reaches_trans g hreach_tt (hd c hcr).1
            simp [hsub, reach_iff g |>.mpr hrc]
      · exact Or.inr (Or.inl (List.mem_append_right _ hc'))
      · exact Or.inr (Or.inr hc')
    · intro x hx
      rcases List.mem_append.mp hx with hx' | hx'
      · obtain ⟨hxr, hcond⟩ := List.mem_filter.mp hx'
        have hxt := hd x hxr
        have hrx : Reaches g typ x := Reaches_trans g hreach_tt hxt.1
        refine ⟨hrx, ?_⟩
        intro hEq
        have := Reaches_le g hxt.1
        rw [hEq] at this
        omega
      · exact qd x hx'
    · intro t' ht'
      rcases List.mem_cons.mp ht' with rfl | ht''
      · exact qa (he)
      · exact qe t' ht''

/-- The specification of `_get_all_subclasses`: the memo grows monotonically,
every newly memoized class other than `typ` also appears in the result, the
memo invariant is preserved, every result element is a strict descendant of
`typ`, and `typ` is memoized. -/
theorem gasF_spec (g : ClassGraph) :
    ∀ (fuel : Nat) (typ : Fin g.n) (m res out : List (Fin g.n)),
      g.n - typ.val < fuel → MemoInv g m m typ → gasF g fuel typ true m = (res, out) →
      m ⊆ out ∧
      (∀ c ∈ out, c ∈ m ∨ c = typ ∨ c ∈ res) ∧
      MemoInv g out m typ ∧
      (∀ x ∈ res, Reaches g typ x ∧ x ≠ typ) ∧
      typ ∈ out := by
  intro fuel
  induction fuel with
  | zero =>
    intro typ m res out hf _ _
    exact absurd hf (by omega)
  | succ fuel ih =>
    intro typ m res out hf hinv heq
    by_cases hmem : typ ∈ m
    · simp only [gasF, if_pos hmem, Prod.mk.injEq] at heq
      obtain ⟨rfl, rfl⟩ := heq
      exact ⟨fun c hc => hc, fun c hc => Or.inl hc, hinv,
        fun x hx => absurd hx (List.not_mem_nil x), hmem⟩
    · obtain ⟨q1, q2, hq⟩ : ∃ a b,
          gasLoop g typ (fun t m' => gasF g fuel t true m') (g.subs typ) (typ :: m) = (a, b) :=
        ⟨_, _, rfl⟩
      simp only [gasF, if_neg hmem, hq, Prod.mk.injEq] at heq
      obtain ⟨rfl, rfl⟩ := heq
      have hinv1 : MemoInv g (typ :: m) (typ :: m) typ := by
        intro c hcm
        rcases List.mem_cons.mp hcm with rfl | hcm'
        · exact Or.inr ⟨.refl c, List.mem_cons_self _ _⟩
        · rcases hinv c hcm' with hcl | ⟨hr, hm0⟩
          · exact Or.inl (hcl.mono (fun x hx => List.mem_cons_of_mem _ hx))
          · exact Or.inr ⟨hr, List.mem_cons_of_mem _ hm0⟩
      obtain ⟨qa, qb, qc, qd, qe⟩ := gasLoop_spec g fuel typ ih (g.subs typ) (typ :: m)
        (typ :: m) q1 q2 (fun _ h => h) (by omega) hinv1 hq
      have htypq : typ ∈ q2 := qa (List.mem_cons_self _ _)
      have hts : ∀ t ∈ g.subs typ, ClosedIn g t q2 := by
        intro t ht
        rcases qc t (qe t ht) with hcl | ⟨hrt, _⟩
        · exact hcl
        · exact absurd (Reaches_le g hrt) (by have := g.acyclic typ t ht; omega)
      have hclosTyp : ClosedIn g typ q2 := by
        intro x hx
        cases hx with
        | refl => exact htypq
        | step hb h2 => exact hts _ hb _ h2
      refine ⟨fun c hcm => qa (List.mem_cons_of_mem _ hcm), ?_, ?_, ?_, htypq⟩
      · intro c hcq
        rcases qb c hcq with hc' | hc' | hc'
        · rcases List.mem_cons.mp hc' with rfl | hcm
          · exact Or.inr (Or.inl rfl)
          · exact Or.inl hcm
        · exact Or.inr (Or.inr (List.mem_append_right _ hc'))
        · exact Or.inr (Or.inr (List.mem_append_left _ (mem_firstPass_of_subs g typ hc')))
      · intro c hcq
        rcases qc c hcq with hcl | ⟨hr, hm⟩
        · exact Or.inl hcl
        · rcases List.mem_cons.mp hm with rfl | hm'
          · exact Or.inl hclosTyp
          · exact Or.inr ⟨hr, hm'⟩
      · intro x hx
        rcases List.mem_append.mp hx with hx' | hx'
        · obtain ⟨h1, h2⟩ := firstPass_desc g typ x hx'
          exact ⟨h1, h2⟩
        · exact qd x hx'

/-- The direct-subclass lists of a diamond hierarchy: `A` (0) has subclasses
`B` (1) and `C` (2); `D` (3) subclasses both `B` and `C`. -/
def diamondSubs : Fin 4 → List (Fin 4) := fun i =>
  if i.val = 0 then [1, 2] else if i.val = 1 then [3] else if i.val = 2 then [3] else []

/-- The diamond class hierarchy. -/
def diamond : ClassGraph := ⟨4, diamondSubs, by decide⟩

/-- C9 counterexample: on the diamond hierarchy, `_get_all_subclasses`
returns the bottom class once per parent — `[B, C, D, D]` — so the result
list is NOT duplicate-free, refuting the at-most-once part of the claim. -/
theorem C9_subclass_enumeration_counterexample :
    get_all_subclasses diamond ((0 : Fin 4)) = ([1, 2, 3, 3] : List (Fin 4)) ∧
    ¬ (get_all_subclasses diamond ((0 : Fin 4))).Nodup := by
  exact ⟨by decide, by decide⟩

/-- C9 (amended): for every class hierarchy, `_get_all_subclasses` (with
recursion and a fresh memo) returns every strict subclass of the base at
least once; but the result may contain a class more than once when the
hierarchy is diamond shaped (a class reachable through several parents), so
the enumeration is complete yet not duplicate-free in general. -/
theorem C9_subclass_enumeration_complete (g : ClassGraph) (typ x : Fin g.n)
    (hx : Reaches g typ x) (hne : x ≠ typ) : x ∈ get_all_subclasses g typ := by
  obtain ⟨res, out, heq⟩ : ∃ a b, gasF g (g.n + 1) typ true [] = (a, b) := ⟨_, _, rfl⟩
  obtain ⟨_, hb, hc, _, he⟩ := gasF_spec g (g.n + 1) typ [] res out
    (by have := typ.isLt; omega) (fun c hc => absurd hc (List.not_mem_nil c)) heq
  have hclos : ClosedIn g typ out := by
    rcases hc typ he with h | ⟨_, h⟩
    · exact h
    · exact absurd h (List.not_mem_nil typ)
  rcases hb x (hclos x hx) with h | h | h
  · exact absurd h (List.not_mem_nil x)
  · exact absurd h hne
  · show x ∈ (gasF g (g.n + 1) typ true []).1
    rw [heq]
    exact h

/-- C9 witness: in the diamond, the bottom class `D` is a strict descendant
of the root and is indeed enumerated. -/
theorem C9_subclass_enumeration_complete_witness :
    ((3 : Fin 4)) ∈ get_all_subclasses diamond ((0 : Fin 4)) :=
  C9_subclass_enumeration_complete diamond ((0 : Fin 4)) ((3 : Fin 4))
    (.step (show (1 : Fin 4) ∈ diamond.subs ((0 : Fin 4)) by decide)
      (.step (show (3 : Fin 4) ∈ diamond.subs ((1 : Fin 4)) by decide) (.refl _)))
    (by decide)

/-- C5 witness: the four declaration outcomes on a concrete class. -/
theorem C5_yaml_info_declaration_rules_witness :
    yaml_info_decorate plainCls none (some "com.example")
      = .ok { plainCls with tagSuffix := some ("com.example" ++ "." ++ plainCls.name), ownSuffix := true } ∧
    (∃ m, yaml_info_decorate plainCls (some "com.example.Foo2") (some "com.example")
        = .error (.valueError m)) ∧
    (∃ m, yaml_info_decorate plainCls none none = .error (.valueError m)) ∧
    (∃ m, yaml_info_decorate plainCls (some "!bad") none = .error (.valueError m)) :=
  ⟨C5_yaml_info_declaration_rules.1 plainCls "com.example" rfl rfl (by decide),
   C5_yaml_info_declaration_rules.2.1 plainCls "com.example.Foo2" "com.example",
   C5_yaml_info_declaration_rules.2.2.1 plainCls,
   C5_yaml_info_declaration_rules.2.2.2 plainCls "!bad" rfl rfl (by decide)⟩

end Yamlable
